import Mathlib

/-!
Verification development for the CHRONOS-EYE media indexing and retrieval
core.  The Python modules `src/database.py`, `src/embedder.py`,
`src/scanner.py`, `src/search.py`, `utils/frame_sampler.py` and the
top-level pipeline `index.py` are shallowly embedded as executable Lean
functions.  External collaborators (the ChromaDB ANN store internals, the
CLIP embedding provider, PIL image loading, the OpenCV frame decoder and
the SHA-256 digest) are modelled as parameters or from the specification,
as marked in the corresponding doc comments.  Machine floats are modelled
as rationals (exact arithmetic); fallible Python code returns `Except`.
-/

namespace Chronos

/-- Metadata dictionaries (`dict[str, str]`-shaped association lists). -/
abbrev Metadata : Type := List (String × String)

/-! ## NumPy arrays

`database.py` inspects `embeddings.shape`, so the embedding distinguishes
1-D and 2-D arrays the way the Python code does. -/

/-- A NumPy float array of rank 1 or 2 (entries modelled as rationals). -/
inductive NpArray where
  | oneD (v : List ℚ)
  | twoD (rows : List (List ℚ))
deriving DecidableEq

/-- Python `len(a)`: the first component of the shape. -/
def NpArray.pyLen : NpArray → Nat
  | .oneD v => v.length
  | .twoD rows => rows.length

/-- `len(a.shape)`: the rank of the array. -/
def NpArray.rank : NpArray → Nat
  | .oneD _ => 1
  | .twoD _ => 2

/-- `a.shape[0]`. -/
def NpArray.shape0 : NpArray → Nat
  | .oneD v => v.length
  | .twoD rows => rows.length

/-- `a.shape[1]` of a (rectangular) 2-D array; `0` if the array is empty. -/
def NpArray.shape1 : NpArray → Nat
  | .oneD _ => 0
  | .twoD rows => (rows.headD []).length

/-- The expression `a.shape[1] if len(a.shape) == 2 else a.shape[0]` used
both to auto-detect and to re-check the embedding dimension in
`database.py` (`add_embeddings`, lines 119-130). -/
def NpArray.autoDim (a : NpArray) : Nat :=
  if a.rank = 2 then a.shape1 else a.shape0

/-- `a.tolist()` as passed to `collection.add`: one row per stored vector
(a 1-D array stands for a single embedding). -/
def NpArray.toRows : NpArray → List (List ℚ)
  | .oneD v => [v]
  | .twoD rows => rows

/-! ## Vector database (`src/database.py`) -/

/-- One (id, vector, metadata) record held by the ANN collection. -/
structure VectorRecord where
  id : String
  vector : List ℚ
  metadata : Metadata
deriving DecidableEq

/-- The `VectorDatabase` state: the optional locked embedding dimension
(`self.embedding_dim`) and the records of the backing collection. -/
structure VectorDatabase where
  embedding_dim : Option Nat
  records : List VectorRecord
deriving DecidableEq

/-- Modelled from the spec: the external ANN Store's add operation —
"IDs are treated as the stable external identity: `upsert` with an
existing ID updates that record in place (no duplicates)" (§4.4).  The
store internals live in the `chromadb` package, outside this repository. -/
def collectionUpsertOne (recs : List VectorRecord) (r : VectorRecord) :
    List VectorRecord :=
  if recs.any (fun s => s.id = r.id) then
    recs.map (fun s => if s.id = r.id then r else s)
  else
    recs ++ [r]

/-- Modelled from the spec: `collection.add` over a batch of records
(external ANN Store capability, §6: "add/query/delete by vector"). -/
def collectionAdd (recs : List VectorRecord) (ids : List String)
    (rows : List (List ℚ)) (metas : List Metadata) : List VectorRecord :=
  ((ids.zip (rows.zip metas)).map
    (fun p => VectorRecord.mk p.1 p.2.1 p.2.2)).foldl collectionUpsertOne recs

/-- `VectorDatabase.add_embeddings` (`database.py` lines 102-142).  Note
the guard on line 116 is the Python chained comparison
`len(ids) != len(embeddings) != len(metadatas)`, i.e. a conjunction of
the two adjacent inequalities. -/
def add_embeddings (db : VectorDatabase) (ids : List String)
    (embeddings : NpArray) (metadatas : List Metadata) :
    Except String VectorDatabase :=
  if ids.length ≠ embeddings.pyLen ∧ embeddings.pyLen ≠ metadatas.length then
    .error "ids, embeddings, and metadatas must have same length"
  else
    let dim := match db.embedding_dim with
      | none => embeddings.autoDim
      | some d => d
    let expected_dim := embeddings.autoDim
    if expected_dim ≠ dim then
      .error ("Embedding dimension mismatch: expected " ++ toString dim ++
        ", got " ++ toString expected_dim)
    else
      .ok ⟨some dim, collectionAdd db.records ids embeddings.toRows metadatas⟩

/-! ## Embedding pipeline (`src/embedder.py`)

The CLIP model, the torch tensor operations and PIL image loading are
external capabilities (spec §1, §6); they appear as function-valued fields
of `EmbeddingPipeline`.  `Img` is the type of decoded images. -/

/-- The `EmbeddingPipeline` state.  `loadImage` models
`PIL.Image.open(path).convert('RGB')` (`none` = the `except` branch),
`getImageFeatures` models `model.get_image_features` over a batch (one
feature vector per image), `getTextFeatures` models
`model.get_text_features`, and `l2norm` models `tensor.norm(dim=-1)`
applied to one row. -/
structure EmbeddingPipeline (Img : Type) where
  embedding_dim : Nat
  loadImage : String → Option Img
  getImageFeatures : List Img → List (List ℚ)
  getTextFeatures : String → List ℚ
  l2norm : List ℚ → ℚ

/-- The all-zero vector `np.zeros(dim)`. -/
def zeroVec (dim : Nat) : List ℚ :=
  List.replicate dim 0

/-- One row of `features / features.norm(dim=-1, keepdim=True)`. -/
def normalizeRow {Img : Type} (P : EmbeddingPipeline Img) (v : List ℚ) :
    List ℚ :=
  v.map (fun x => x / P.l2norm v)

/-- The loop `for idx, path in enumerate(image_paths): try: ...`
(`embedder.py` lines 111-118): the successfully loaded images together
with their original indices (`valid_indices` zipped with `images`). -/
def validLoads {Img : Type} (P : EmbeddingPipeline Img) :
    Nat → List String → List (Nat × Img)
  | _, [] => []
  | i, p :: ps =>
    match P.loadImage p with
    | some img => (i, img) :: validLoads P (i + 1) ps
    | none => validLoads P (i + 1) ps

/-- The NumPy scatter `full_embeddings = np.zeros(...);
full_embeddings[valid_indices] = embeddings` (`embedder.py` lines
140-143): slot `i` receives the row paired with index `i`, every other
slot keeps the zero vector. -/
def scatterRows (n dim : Nat) (idxs : List Nat) (rows : List (List ℚ)) :
    List (List ℚ) :=
  (List.range n).map (fun i =>
    match (idxs.zip rows).find? (fun q => q.1 = i) with
    | some q => q.2
    | none => zeroVec dim)

/-- `EmbeddingPipeline._encode_image_batch` (`embedder.py` lines
106-145). -/
def encode_image_batch {Img : Type} (P : EmbeddingPipeline Img)
    (image_paths : List String) : List (List ℚ) :=
  let valids := validLoads P 0 image_paths
  let images := valids.map Prod.snd
  let valid_indices := valids.map Prod.fst
  if images.isEmpty then
    List.replicate image_paths.length (zeroVec P.embedding_dim)
  else
    let feats := P.getImageFeatures images
    let embs := feats.map (normalizeRow P)
    if valid_indices.length < image_paths.length then
      scatterRows image_paths.length P.embedding_dim valid_indices embs
    else
      embs

/-- `np.vstack` over a Python list of equal-width arrays: raises
`ValueError: need at least one array to concatenate` on an empty list. -/
def npVstack (l : List (List (List ℚ))) : Except String (List (List ℚ)) :=
  if l.isEmpty then .error "need at least one array to concatenate"
  else .ok l.flatten

/-- `range(0, n, b)` for a positive step `b` (a zero step raises in
Python; all callers use a positive batch size). -/
def batchStarts (n b : Nat) : List Nat :=
  (List.range ((n + b - 1) / b)).map (· * b)

/-- The per-batch results `[self._encode_image_batch(image_paths[i:i+b])
for i in range(0, len(image_paths), b)]`. -/
def encodeBatchesList {Img : Type} (P : EmbeddingPipeline Img)
    (image_paths : List String) (batch_size : Nat) :
    List (List (List ℚ)) :=
  (batchStarts image_paths.length batch_size).map
    (fun i => encode_image_batch P ((image_paths.drop i).take batch_size))

/-- `EmbeddingPipeline.encode_images` (`embedder.py` lines 82-104):
batched encoding followed by `np.vstack`. -/
def encode_images {Img : Type} (P : EmbeddingPipeline Img)
    (image_paths : List String) (batch_size : Nat) :
    Except String (List (List ℚ)) :=
  npVstack (encodeBatchesList P image_paths batch_size)

/-- `EmbeddingPipeline.encode_text` (`embedder.py` lines 147-159). -/
def encode_text {Img : Type} (P : EmbeddingPipeline Img) (query : String) :
    List ℚ :=
  normalizeRow P (P.getTextFeatures query)

/-- Squared Euclidean norm; `sumSq v = 1` states that `v` has unit L2
length (exactly, in the rational model). -/
def sumSq (v : List ℚ) : ℚ :=
  (v.map (fun x => x * x)).sum

/-- Soundness of the external provider and norm: `get_image_features`
returns one feature vector per input image, and `l2norm` is the exact,
positive L2 norm on those vectors (CLIP features are nonzero). -/
structure FeatureSound {Img : Type} (P : EmbeddingPipeline Img) : Prop where
  len_eq : ∀ imgs, (P.getImageFeatures imgs).length = imgs.length
  norm_sq : ∀ imgs v, v ∈ P.getImageFeatures imgs →
    P.l2norm v * P.l2norm v = sumSq v
  norm_pos : ∀ imgs v, v ∈ P.getImageFeatures imgs → 0 < P.l2norm v

/-- The alignment contract of `encode_images` claimed by the spec: output
length matches input length, a path whose image fails to load owns the
all-zero vector at its index, and a path that loads owns a unit-length
vector at its index. -/
def BatchAligned {Img : Type} (P : EmbeddingPipeline Img)
    (image_paths : List String) (out : List (List ℚ)) : Prop :=
  out.length = image_paths.length ∧
  ∀ i, i < image_paths.length →
    (P.loadImage (image_paths.getD i "") = none →
      out.getD i [] = zeroVec P.embedding_dim) ∧
    (P.loadImage (image_paths.getD i "") ≠ none →
      sumSq (out.getD i []) = 1)

/-! ## Frame sampler (`utils/frame_sampler.py`)

Frame decoding is the external Frame Decoder capability: a video is
modelled as the decoder-reported fps together with the sequence of frames
that successive `cap.read()` calls yield before the first `ret == False`.
`F` is the type of decoded pixel buffers. -/

/-- A sampled video frame (`SampledFrame` dataclass, lines 22-27). -/
structure SampledFrame (F : Type) where
  frame_data : F
  timestamp : ℚ
  frame_number : Nat
deriving DecidableEq

/-- An opened `cv2.VideoCapture`: its reported fps and decodable frames. -/
structure Video (F : Type) where
  isOpened : Bool
  fps : ℚ
  frames : List F
deriving DecidableEq

/-- The sampler configuration (`FrameSampler.__init__`, lines 39-62);
`fps` is the target sampling rate (default 1.0). -/
structure SamplerConfig where
  method : String
  fps : ℚ
  scene_threshold : ℚ
  min_scene_length : Nat
deriving DecidableEq

/-- Python `int()` applied to a float/rational: truncation toward zero. -/
def pyInt (q : ℚ) : Int :=
  if q < 0 then -(Int.floor (-q)) else Int.floor q

/-- The Python truthiness test `if max_frames and len(frames) >= max_frames`
(line 209): `None` and `0` are falsy, so `max_frames = 0` never stops the
loop. -/
def maxFramesReached (max_frames : Option Nat) (collected : Nat) : Bool :=
  match max_frames with
  | none => false
  | some m => decide (m ≠ 0) && decide (m ≤ collected)

/-- The `while True: ret, frame = cap.read() ...` loop of
`_sample_fixed_interval` (lines 190-213).  `collected` is
`len(frames)` so far and `n` is `frame_number`.  Python raises
`ZeroDivisionError` at `frame_number % frame_interval` when the interval
is zero; the loop ends when `cap.read()` fails (frame list exhausted) or
when `max_frames` is reached right after appending a frame. -/
def sampleLoop {F : Type} (fps : ℚ) (frame_interval : Int)
    (max_frames : Option Nat) :
    Nat → Nat → List F → Except String (List (SampledFrame F))
  | _, _, [] => .ok []
  | collected, n, f :: fs =>
    if frame_interval = 0 then .error "integer modulo by zero"
    else if (n : Int) % frame_interval = 0 then
      let sf : SampledFrame F := ⟨f, (n : ℚ) / fps, n⟩
      if maxFramesReached max_frames (collected + 1) then .ok [sf]
      else (sampleLoop fps frame_interval max_frames (collected + 1) (n + 1)
        fs).map (fun l => sf :: l)
    else sampleLoop fps frame_interval max_frames collected (n + 1) fs

/-- `FrameSampler._sample_fixed_interval` (lines 170-215):
`frame_interval = int(video_fps / self.fps)` followed by the sampling
loop.  (`total_frames` is read on line 182 but never used.) -/
def sample_fixed_interval {F : Type} (cfg : SamplerConfig) (v : Video F)
    (max_frames : Option Nat) : Except String (List (SampledFrame F)) :=
  if ¬ v.isOpened then .error "Could not open video"
  else
    let frame_interval := pyInt (v.fps / cfg.fps)
    sampleLoop v.fps frame_interval max_frames 0 0 v.frames

/-- The output claimed for fixed-interval sampling with a *rounded*
interval, written from the claim's words for refutation: frameInterval =
round(videoFps / targetFps), every frame whose index is a multiple of it,
ascending, capped at maxFrames, timestamp = index / videoFps.  `dflt` is
an arbitrary default pixel buffer (indices produced by the filter are in
range). -/
def fixedIntervalRoundSpec {F : Type} (dflt : F) (cfg : SamplerConfig)
    (v : Video F) (max_frames : Nat) : List (SampledFrame F) :=
  let k := (round (v.fps / cfg.fps)).toNat
  (((List.range v.frames.length).filter (fun n => n % k = 0)).take
    max_frames).map (fun n => ⟨v.frames.getD n dflt, (n : ℚ) / v.fps, n⟩)

/-- The output of fixed-interval sampling with the *truncated* interval
the code computes (`frame_interval = int(video_fps / self.fps)`, line
185): every frame whose index is a multiple of the interval, ascending,
capped at `max_frames`, timestamp = index / videoFps. -/
def fixedIntervalTruncSpec {F : Type} (dflt : F) (cfg : SamplerConfig)
    (v : Video F) (max_frames : Nat) : List (SampledFrame F) :=
  let k := (pyInt (v.fps / cfg.fps)).toNat
  (((List.range v.frames.length).filter (fun n => n % k = 0)).take
    max_frames).map (fun n => ⟨v.frames.getD n dflt, (n : ℚ) / v.fps, n⟩)

/-! ## Search engine (`src/search.py`) and store queries

The ranked query itself runs inside ChromaDB (external ANN Store
capability); it is modelled from the spec (§4.4): cosine-based distance,
ranked ascending by distance (descending similarity), ties stable, then
truncated to `n_results`.  All vectors the repository stores are
L2-normalized, for which cosine similarity is the dot product. -/

/-- A search result (`SearchResult` dataclass, `database.py` 15-29). -/
structure SearchResult where
  file_id : String
  file_path : String
  similarity_score : ℚ
  metadata : Metadata
deriving DecidableEq

/-- Dot product of two vectors. -/
def dotProduct (u v : List ℚ) : ℚ :=
  ((u.zip v).map (fun p => p.1 * p.2)).sum

/-- Modelled from the spec: cosine distance between unit vectors,
`1 - cos = 1 - u·v` (the collection is created with
`"hnsw:space": "cosine"`, `database.py` line 92). -/
def cosineDistance (u v : List ℚ) : ℚ :=
  1 - dotProduct u v

/-- Modelled from the spec: the `where` clause is "an exact-match
conjunction over metadata fields" (§4.4). -/
def metadataMatches (filt : Metadata) (m : Metadata) : Bool :=
  filt.all (fun kv => m.lookup kv.1 = some kv.2)

/-- Insert a (record, distance) pair into a distance-sorted list, before
any later pair at the same distance (stable ranking). -/
def insertAsc (x : VectorRecord × ℚ) :
    List (VectorRecord × ℚ) → List (VectorRecord × ℚ)
  | [] => [x]
  | y :: ys => if y.2 < x.2 then y :: insertAsc x ys else x :: y :: ys

/-- Stable insertion sort by ascending distance. -/
def sortAsc (l : List (VectorRecord × ℚ)) : List (VectorRecord × ℚ) :=
  l.foldr insertAsc []

/-- Modelled from the spec: `collection.query(query_embeddings, n_results,
where)` of the external ANN Store — filter, rank by ascending cosine
distance, return the first `n_results`. -/
def collectionQuery (recs : List VectorRecord) (q : List ℚ)
    (n_results : Nat) (whereFilt : Option Metadata) :
    List (VectorRecord × ℚ) :=
  let cands := match whereFilt with
    | none => recs
    | some f => recs.filter (fun r => metadataMatches f r.metadata)
  (sortAsc (cands.map (fun r => (r, cosineDistance q r.vector)))).take
    n_results

/-- `VectorDatabase.search` (`database.py` lines 144-191): query the
collection, then convert each hit to a `SearchResult` with
`similarity_score = 1.0 - distance` and
`file_path = metadata.get('file_path', '')`.  (The 1-D/2-D reshape of the
query embedding is identity here: the model passes the single query
vector directly.) -/
def dbSearch (db : VectorDatabase) (query_embedding : List ℚ)
    (top_k : Nat) (filter_metadata : Option Metadata) : List SearchResult :=
  (collectionQuery db.records query_embedding top_k filter_metadata).map
    (fun p => ⟨p.1.id, (p.1.metadata.lookup "file_path").getD "",
      1 - p.2, p.1.metadata⟩)

/-- `SemanticSearch.search_text` (`search.py` lines 44-82).  Note the
guard on line 79 is `if min_score > 0:`, and the `file_type` truthiness
test on line 68 treats the empty string as no filter. -/
def search_text {Img : Type} (P : EmbeddingPipeline Img)
    (db : VectorDatabase) (query : String) (top_k : Nat)
    (file_type : Option String) (min_score : ℚ) : List SearchResult :=
  let query_embedding := encode_text P query
  let filter_metadata : Option Metadata := match file_type with
    | some ft => if ft = "" then none else some [("file_type", ft)]
    | none => none
  let results := dbSearch db query_embedding top_k filter_metadata
  if 0 < min_score then
    results.filter (fun r => min_score ≤ r.similarity_score)
  else results

/-- `VectorDatabase.get_by_id` (`database.py` lines 209-221): fetch one
record by id from the collection (external `collection.get`, modelled as
association lookup); `embedding` is `None`/empty exactly when absent. -/
def get_by_id (db : VectorDatabase) (file_id : String) :
    Option (String × List ℚ × Metadata) :=
  match db.records.find? (fun r => r.id = file_id) with
  | some r => some (r.id, r.vector, r.metadata)
  | none => none

/-- `SemanticSearch.get_similar_files` (`search.py` lines 172-205): look
up the item's stored vector, query `top_k + 1` neighbours, drop the item
itself, truncate back to `top_k`.  The Python falsiness test
`if not file_data or not file_data['embedding']` also rejects an empty
stored vector. -/
def get_similar_files (db : VectorDatabase) (file_id : String)
    (top_k : Nat) : Except String (List SearchResult) :=
  match get_by_id db file_id with
  | none => .error ("File not found in database: " ++ file_id)
  | some fd =>
    if fd.2.1 = [] then .error ("File not found in database: " ++ file_id)
    else
      let results := dbSearch db fd.2.1 (top_k + 1) none
      .ok ((results.filter (fun r => r.file_id ≠ file_id)).take top_k)

/-! ## Media scanner (`src/scanner.py`)

The filesystem walk (`os.walk` with hidden directories pruned) is external
I/O; a scan input is the list of files the walk visits, each carrying the
data the scanner reads from it.  The SHA-256 digest (`hashlib`) is
external and appears as the function parameter `hashFn`; the embedding
records exactly which bytes `_compute_file_hash` feeds to it. -/

/-- Python `str.lower` on one character, for the ASCII range extensions
live in. -/
def pyCharLower (c : Char) : Char :=
  if 65 ≤ c.toNat ∧ c.toNat ≤ 90 then Char.ofNat (c.toNat + 32) else c

/-- Python `str.lower` (ASCII; file extensions contain no other
characters). -/
def pyLower (s : String) : String :=
  ⟨s.data.map pyCharLower⟩

/-- A file visited by the walk: its path, extension (`Path.suffix`),
bytes (`open(...).read()` content), stat size and mtime, and whether
reading succeeds (`readable = false` is the `IOError` branch). -/
structure FsFile where
  path : String
  ext : String
  content : List Nat
  size : Nat
  modified_time : ℚ
  readable : Bool
deriving DecidableEq

/-- What `_compute_file_hash` feeds into the SHA-256 hasher: the full
content (small files), first MiB + last MiB + size string (large files),
or path string + size string (unreadable files). -/
inductive HashInput where
  | fullContent (bytes : List Nat)
  | headTail (first last : List Nat) (size : Nat)
  | pathFallback (path : String) (size : Nat)
deriving DecidableEq

/-- A discovered media file (`MediaFile` dataclass, `scanner.py` 15-31). -/
structure MediaFile where
  path : String
  file_hash : String
  file_type : String
  size_bytes : Nat
  modified_time : ℚ
deriving DecidableEq

/-- The `MediaScanner` state: the lowercased extension allow-lists fixed
at construction and the loaded fingerprint set `self.indexed_files`
(hash membership is what matters; the model keeps a list). -/
structure ScannerState where
  video_extensions : List String
  image_extensions : List String
  indexed_files : List String
deriving DecidableEq

/-- `self.all_extensions`. -/
def ScannerState.all_extensions (s : ScannerState) : List String :=
  s.video_extensions ++ s.image_extensions

/-- `MediaScanner._compute_file_hash` (`scanner.py` lines 131-167):
full-content digest under 10 MiB, head + tail + size digest otherwise,
path + size fallback when the read raises. -/
def compute_file_hash (hashFn : HashInput → String) (f : FsFile) : String :=
  if f.size < 10 * 1024 * 1024 then
    if f.readable then hashFn (.fullContent f.content)
    else hashFn (.pathFallback f.path f.size)
  else
    if f.readable then
      hashFn (.headTail (f.content.take (1024 * 1024))
        (f.content.drop (f.content.length - 1024 * 1024)) f.size)
    else hashFn (.pathFallback f.path f.size)

/-- The `MediaFile` record `scan_directory` builds for a visited file. -/
def toMediaFile (hashFn : HashInput → String) (s : ScannerState)
    (f : FsFile) : MediaFile :=
  ⟨f.path, compute_file_hash hashFn f,
    if pyLower f.ext ∈ s.video_extensions then "video" else "image",
    f.size, f.modified_time⟩

/-- `MediaScanner.scan_directory` (`scanner.py` lines 169-235) over the
files the walk visits: keep files with an allow-listed extension, compute
the fingerprint, and in incremental mode drop files whose fingerprint is
already in the loaded set. -/
def scan_directory (hashFn : HashInput → String) (s : ScannerState)
    (walkFiles : List FsFile) (incremental : Bool) : List MediaFile :=
  walkFiles.filterMap (fun f =>
    if pyLower f.ext ∉ s.all_extensions then none
    else if incremental ∧
        compute_file_hash hashFn f ∈ s.indexed_files then none
    else some (toMediaFile hashFn s f))

/-- `MediaScanner.update_ignore_file` (`scanner.py` lines 237-249): union
the hashes of `media_files` into the in-memory fingerprint set and persist
it (persistence is a full rewrite of the set, so the state below is also
what the ignore file holds). -/
def update_ignore_file (s : ScannerState) (media_files : List MediaFile) :
    ScannerState :=
  { s with indexed_files := s.indexed_files ++ media_files.map (·.file_hash) }

/-! ## Indexing pipeline (`index.py`)

Frame extraction and the save-to-temp-JPEG / reload / CLIP-encode round
trip of `_index_videos` are external capabilities (OpenCV, tempfile, PIL,
the provider); they appear as the function fields `sampleVideo` and
`frameEncode` of the context, with `frameEncode` producing the embedding
row `encode_images` returns for one saved frame. -/

/-- The components `ChronosIndexer` wires together, minus the database
and scanner state threaded explicitly. -/
structure IndexerCtx (Img F : Type) where
  embedder : EmbeddingPipeline Img
  batch_size : Nat
  sampleVideo : String → Except String (List (SampledFrame F))
  frameEncode : F → List ℚ

/-- Image metadata built in `_index_images` (`index.py` lines 164-172);
values stringified in the metadata model. -/
def imageMeta (img : MediaFile) : Metadata :=
  [("file_path", img.path), ("file_type", img.file_type),
   ("size_bytes", toString img.size_bytes),
   ("modified_time", toString img.modified_time)]

/-- Frame metadata built in `_index_videos` (`index.py` lines 217-224). -/
def videoFrameMeta {F : Type} (video : MediaFile) (fr : SampledFrame F) :
    Metadata :=
  [("file_path", video.path), ("file_type", video.file_type),
   ("size_bytes", toString video.size_bytes),
   ("modified_time", toString video.modified_time),
   ("timestamp", toString fr.timestamp),
   ("frame_number", toString fr.frame_number)]

/-- `ChronosIndexer._index_images` (`index.py` lines 148-175): encode all
image paths, then one `add_embeddings` call; any error propagates. -/
def index_images {Img F : Type} (ctx : IndexerCtx Img F)
    (db : VectorDatabase) (images : List MediaFile) :
    Except String VectorDatabase :=
  match encode_images ctx.embedder (images.map (·.path)) ctx.batch_size with
  | .error e => .error e
  | .ok embs =>
    add_embeddings db (images.map (·.file_hash)) (.twoD embs)
      (images.map imageMeta)

/-- The per-video loop of `_index_videos` (`index.py` lines 185-237): a
sampling failure is caught and the video skipped, a video with zero
frames is skipped with a warning, otherwise its frame ids
(`hash + "_f" + frame_number`), embeddings and metadata are accumulated
in video order. -/
def index_videos_collect {Img F : Type} (ctx : IndexerCtx Img F) :
    List MediaFile → List String × List (List ℚ) × List Metadata
  | [] => ([], [], [])
  | v :: vs =>
    let rest := index_videos_collect ctx vs
    match ctx.sampleVideo v.path with
    | .error _ => rest
    | .ok frames =>
      if frames.isEmpty then rest
      else
        (frames.map (fun fr => v.file_hash ++ "_f" ++
            toString fr.frame_number) ++ rest.1,
         frames.map (fun fr => ctx.frameEncode fr.frame_data) ++ rest.2.1,
         frames.map (videoFrameMeta v) ++ rest.2.2)

/-- `ChronosIndexer._index_videos` (`index.py` lines 177-242): collect
over all videos, then — only if anything was collected — one
`add_embeddings` call on the `np.vstack` of the accumulated rows; an
error there propagates. -/
def index_videos {Img F : Type} (ctx : IndexerCtx Img F)
    (db : VectorDatabase) (videos : List MediaFile) :
    Except String VectorDatabase :=
  let acc := index_videos_collect ctx videos
  if acc.2.1 = [] then .ok db
  else add_embeddings db acc.1 (.twoD acc.2.1) acc.2.2

/-- `ChronosIndexer.index_directory` (`index.py` lines 90-146): scan,
early-return when nothing is new, index images then videos (errors
propagate, skipping the commit), then call
`scanner.update_ignore_file(media_files)` once, with the *entire* scan
result.  (Path validation is OS-external and precedes the walk.) -/
def index_directory {Img F : Type} (hashFn : HashInput → String)
    (ctx : IndexerCtx Img F) (scanner : ScannerState)
    (db : VectorDatabase) (walkFiles : List FsFile) (incremental : Bool) :
    Except String (ScannerState × VectorDatabase) :=
  let media_files := scan_directory hashFn scanner walkFiles incremental
  if media_files = [] then .ok (scanner, db)
  else
    let images := media_files.filter (fun f => f.file_type = "image")
    let videos := media_files.filter (fun f => f.file_type = "video")
    match (if images = [] then .ok db else index_images ctx db images :
        Except String VectorDatabase) with
    | .error e => .error e
    | .ok db1 =>
      match (if videos = [] then .ok db1
          else index_videos ctx db1 videos :
          Except String VectorDatabase) with
      | .error e => .error e
      | .ok db2 => .ok (update_ignore_file scanner media_files, db2)

/-! ## Theorems -/

/-- C2: for a store whose dimension is unset, the first `add_embeddings`
call's vector width permanently sets the store's dimension; a later call
whose vectors have a different width fails with the dimension-mismatch
error (before anything reaches the collection), and a successful call
never changes a locked dimension. -/
theorem add_embeddings_dimension_lock :
    (∀ (db : VectorDatabase) ids rows metas db', db.embedding_dim = none →
      add_embeddings db ids (.twoD rows) metas = .ok db' →
      db'.embedding_dim = some (NpArray.twoD rows).autoDim) ∧
    (∀ (db : VectorDatabase) ids rows metas d db',
      db.embedding_dim = some d →
      add_embeddings db ids (.twoD rows) metas = .ok db' →
      db'.embedding_dim = some d) ∧
    (∀ (db : VectorDatabase) ids rows metas d, db.embedding_dim = some d →
      ids.length = rows.length → rows.length = metas.length →
      (NpArray.twoD rows).autoDim ≠ d →
      add_embeddings db ids (.twoD rows) metas =
        .error ("Embedding dimension mismatch: expected " ++ toString d ++
          ", got " ++ toString (NpArray.twoD rows).autoDim)) := by
  refine ⟨?_, ?_, ?_⟩
  · intro db ids rows metas db' hnone hok
    simp only [add_embeddings, hnone] at hok
    split at hok
    · exact absurd hok (by simp)
    · split at hok
      · exact absurd hok (by simp)
      · cases hok
        rfl
  · intro db ids rows metas d db' hsome hok
    simp only [add_embeddings, hsome] at hok
    split at hok
    · exact absurd hok (by simp)
    · split at hok
      · exact absurd hok (by simp)
      · cases hok
        rfl
  · intro db ids rows metas d hsome h1 h2 hne
    simp only [add_embeddings, hsome]
    rw [if_neg (by
      simp only [NpArray.pyLen, not_and, ne_eq, not_not]
      intro hcon
      exact absurd h1 hcon)]
    rw [if_pos hne]

/-- C2 witness: a fresh store locks onto width 2 from its first write, a
locked store keeps its dimension across a matching write, and a
mismatched width (3 against locked 2) is rejected with the
dimension-mismatch error. -/
theorem add_embeddings_dimension_lock_witness :
    (VectorDatabase.mk (some 2) [⟨"a", [1, 0], []⟩]).embedding_dim =
      some (NpArray.twoD [[(1 : ℚ), 0]]).autoDim ∧
    (VectorDatabase.mk (some 2)
      [⟨"a", [1, 0], []⟩, ⟨"b", [0, 1], []⟩]).embedding_dim = some 2 ∧
    add_embeddings ⟨some 2, []⟩ ["c"] (.twoD [[1, 2, 3]]) [[]] =
      .error ("Embedding dimension mismatch: expected " ++ toString 2 ++
        ", got " ++ toString (NpArray.twoD [[(1 : ℚ), 2, 3]]).autoDim) :=
  ⟨add_embeddings_dimension_lock.1 ⟨none, []⟩ ["a"] [[1, 0]] [[]] _ rfl rfl,
   add_embeddings_dimension_lock.2.1 ⟨some 2, [⟨"a", [1, 0], []⟩]⟩ ["b"]
     [[0, 1]] [[]] 2 _ rfl rfl,
   add_embeddings_dimension_lock.2.2 ⟨some 2, []⟩ ["c"] [[1, 2, 3]] [[]] 2
     rfl rfl rfl (by decide)⟩

/-- C3: the guard on `database.py` line 116 is the Python chained
comparison `len(ids) != len(embeddings) != len(metadatas)`, so a call
with `len(embeddings) == len(metadatas)` but a different `len(ids)` is
NOT rejected: here one id against two embeddings and two metadata dicts
raises nothing, and the mismatched batch is handed to the collection,
writing a truncated record set. -/
theorem add_embeddings_length_guard_bug :
    ["id1"].length ≠ (NpArray.twoD [[(1 : ℚ), 2], [3, 4]]).pyLen ∧
    (NpArray.twoD [[(1 : ℚ), 2], [3, 4]]).pyLen =
      [[("k", "a")], [("k", "b")]].length ∧
    add_embeddings ⟨none, []⟩ ["id1"] (.twoD [[1, 2], [3, 4]])
      [[("k", "a")], [("k", "b")]] =
      .ok ⟨some 2, [⟨"id1", [1, 2], [("k", "a")]⟩]⟩ :=
  ⟨by decide, by decide, by rfl⟩

/-- C9: whenever the decoder-reported fps is nonnegative and below the
configured target fps (including fps reported as 0), the truncated frame
interval is 0 and fixed-interval sampling of any openable video with at
least one decodable frame raises the unguarded modulo-by-zero error
instead of returning frames. -/
theorem sample_fixed_interval_slow_fps_raises {F : Type}
    (cfg : SamplerConfig) (v : Video F) (max_frames : Option Nat)
    (hopen : v.isOpened = true) (h0 : 0 ≤ v.fps) (hlt : v.fps < cfg.fps)
    (hne : v.frames ≠ []) :
    sample_fixed_interval cfg v max_frames =
      .error "integer modulo by zero" := by
  have htp : 0 < cfg.fps := lt_of_le_of_lt h0 hlt
  have hq0 : 0 ≤ v.fps / cfg.fps := div_nonneg h0 htp.le
  have hq1 : v.fps / cfg.fps < 1 := (div_lt_one htp).mpr hlt
  have hint : pyInt (v.fps / cfg.fps) = 0 := by
    unfold pyInt
    rw [if_neg (not_lt.mpr hq0)]
    exact Int.floor_eq_zero_iff.mpr ⟨hq0, hq1⟩
  cases hfr : v.frames with
  | nil => exact absurd hfr hne
  | cons f fs =>
    simp [sample_fixed_interval, hopen, hint, hfr, sampleLoop]

/-- C9 witness: a video reporting 0.5 fps against the default 1.0 fps
target raises the modulo-by-zero error on its first frame. -/
theorem sample_fixed_interval_slow_fps_raises_witness :
    sample_fixed_interval ⟨"fixed_interval", 1, 27, 15⟩
      (⟨true, 1/2, [0]⟩ : Video Nat) none =
      .error "integer modulo by zero" :=
  sample_fixed_interval_slow_fps_raises ⟨"fixed_interval", 1, 27, 15⟩
    ⟨true, 1/2, [0]⟩ none rfl (by norm_num) (by norm_num) (by simp)

/-- C5 counterexample: for a video reporting 1.5 fps sampled at the
default 1.0 fps target, the code truncates `int(1.5) = 1` and returns all
three frames, while the claimed `round(1.5) = 2` interval predicts only
frames 0 and 2 — the claim's predicted output differs from what the
sampler returns. -/
theorem sample_fixed_interval_round_counterexample :
    sample_fixed_interval ⟨"fixed_interval", 1, 27, 15⟩
      (⟨true, 3/2, [10, 20, 30]⟩ : Video Nat) (some 30) =
      .ok [⟨10, 0, 0⟩, ⟨20, 2/3, 1⟩, ⟨30, 4/3, 2⟩] ∧
    ([⟨10, 0, 0⟩, ⟨20, 2/3, 1⟩, ⟨30, 4/3, 2⟩] : List (SampledFrame Nat)) ≠
      fixedIntervalRoundSpec 0 ⟨"fixed_interval", 1, 27, 15⟩
        ⟨true, 3/2, [10, 20, 30]⟩ 30 := by
  constructor
  · have hint : pyInt ((3 : ℚ) / 2) = 1 := by
      unfold pyInt
      norm_num
    simp [sample_fixed_interval, hint, sampleLoop, maxFramesReached,
      Except.map]
    norm_num
  · have hr : round ((3 : ℚ) / 2) = 2 := by
      rw [round_eq]
      norm_num
    have hrange : List.range 3 = [0, 1, 2] := rfl
    simp [fixedIntervalRoundSpec, hr, hrange]

/-- C6 counterexample: with `min_score = 0` the guard `if min_score > 0:`
skips the client-side filter entirely, so a stored vector pointing away
from the query is returned with similarity score −1 < 0 = minScore,
refuting the claim for the value 0. -/
theorem search_text_min_score_zero_counterexample :
    search_text (⟨2, fun _ => none, fun _ => [], fun _ => [-2, 0],
        fun v => if v = [-2, 0] then 2 else 1⟩ : EmbeddingPipeline Nat)
      ⟨some 2, [⟨"item1", [1, 0], [("file_path", "/a.jpg")]⟩]⟩
      "night city" 10 none 0 =
      [⟨"item1", "/a.jpg", -1, [("file_path", "/a.jpg")]⟩] ∧
    ¬ ((0 : ℚ) ≤
      (SearchResult.mk "item1" "/a.jpg" (-1)
        [("file_path", "/a.jpg")]).similarity_score) := by
  constructor
  · norm_num [search_text, encode_text, normalizeRow, dbSearch,
      collectionQuery, sortAsc, insertAsc, cosineDistance, dotProduct]
  · norm_num

/-- C6 (amended): for every strictly positive `min_score`, `search_text`
returns only results whose similarity score is at least `min_score`; with
`min_score = 0` the threshold branch is skipped and the store's ranked
results are returned unfiltered. -/
theorem search_text_applies_min_score {Img : Type}
    (P : EmbeddingPipeline Img) (db : VectorDatabase) (query : String)
    (top_k : Nat) (file_type : Option String) (min_score : ℚ)
    (hpos : 0 < min_score) :
    ∀ r ∈ search_text P db query top_k file_type min_score,
      min_score ≤ r.similarity_score := by
  intro r hr
  unfold search_text at hr
  rw [if_pos hpos] at hr
  simpa using (List.mem_filter.mp hr).2

/-- C6 witness: a query aligned with the single stored unit vector scores
1, which survives a 0.5 threshold. -/
theorem search_text_applies_min_score_witness :
    (1/2 : ℚ) ≤ (SearchResult.mk "item1" "/a.jpg" 1
      [("file_path", "/a.jpg")]).similarity_score :=
  search_text_applies_min_score
    (⟨2, fun _ => none, fun _ => [], fun _ => [2, 0],
      fun v => if v = [2, 0] then 2 else 1⟩ : EmbeddingPipeline Nat)
    ⟨some 2, [⟨"item1", [1, 0], [("file_path", "/a.jpg")]⟩]⟩
    "night city" 10 none (1/2) (by norm_num)
    ⟨"item1", "/a.jpg", 1, [("file_path", "/a.jpg")]⟩ (by
      norm_num [search_text, encode_text, normalizeRow, dbSearch,
        collectionQuery, sortAsc, insertAsc, cosineDistance, dotProduct])

/-- C7: whenever `get_similar_files` succeeds it returns at most `top_k`
results and never the query item's own id, even when that item is its own
nearest neighbour (the store is queried with `top_k + 1`). -/
theorem get_similar_files_excludes_self (db : VectorDatabase)
    (file_id : String) (top_k : Nat) (rs : List SearchResult)
    (h : get_similar_files db file_id top_k = .ok rs) :
    rs.length ≤ top_k ∧ ∀ r ∈ rs, r.file_id ≠ file_id := by
  unfold get_similar_files at h
  split at h
  · exact absurd h (by simp)
  · split at h
    · exact absurd h (by simp)
    · have hrs := (Except.ok.injEq _ _).mp h
      subst hrs
      refine ⟨List.length_take_le _ _, ?_⟩
      intro r hr
      have hr' := List.mem_of_mem_take hr
      simpa using (List.mem_filter.mp hr').2

/-- C7 witness: on a two-item store where "a" is its own nearest
neighbour, `get_similar_files "a" 5` returns only "b". -/
theorem get_similar_files_excludes_self_witness :
    ([⟨"b", "", 0, []⟩] : List SearchResult).length ≤ 5 ∧
    ∀ r ∈ ([⟨"b", "", 0, []⟩] : List SearchResult), r.file_id ≠ "a" :=
  get_similar_files_excludes_self
    ⟨some 2, [⟨"a", [1, 0], []⟩, ⟨"b", [0, 1], []⟩]⟩ "a" 5
    [⟨"b", "", 0, []⟩] (by
      norm_num [get_similar_files, get_by_id, dbSearch, collectionQuery,
        sortAsc, insertAsc, cosineDistance, dotProduct]
      simp)

/-- C10: on the empty path list there are no batches, and the final
`np.vstack` is applied to an empty sequence, which raises instead of
returning a 0-length array. -/
theorem encode_images_empty_raises {Img : Type} (P : EmbeddingPipeline Img)
    (batch_size : Nat) (hb : 0 < batch_size) :
    encode_images P [] batch_size =
      .error "need at least one array to concatenate" := by
  have h1 : (batch_size - 1) / batch_size = 0 := Nat.div_eq_of_lt (by omega)
  unfold encode_images encodeBatchesList batchStarts npVstack
  simp [h1]

/-- C10 witness: the default batch size 32 on an empty list raises. -/
theorem encode_images_empty_raises_witness :
    encode_images (⟨2, fun _ => none, fun _ => [], fun _ => [],
        fun _ => 0⟩ : EmbeddingPipeline Nat) [] 32 =
      .error "need at least one array to concatenate" :=
  encode_images_empty_raises _ 32 (by decide)

/-- C1: a run over one video for which frame extraction yields zero
frames completes "successfully", writes nothing to the vector store, and
still commits that video's content hash into the fingerprint set —
`index_directory` passes the entire scan result to `update_ignore_file`,
so a failed video is marked as indexed, contradicting the claim that a
failed item's hash is absent after the run. -/
theorem index_directory_commits_failed_video :
    index_directory (fun hi => match hi with
        | .fullContent b => "c" ++ toString b
        | .headTail _ _ n => "t" ++ toString n
        | .pathFallback p _ => "p" ++ p)
      (⟨⟨2, fun _ => none, fun _ => [], fun _ => [], fun _ => 1⟩, 32,
        fun _ => .ok [], fun _ => []⟩ : IndexerCtx Nat Nat)
      ⟨[".mp4"], [".jpg"], []⟩ ⟨none, []⟩
      [⟨"/m/clip.mp4", ".mp4", [7], 1, 0, true⟩] true =
      .ok (⟨[".mp4"], [".jpg"], ["c" ++ toString [7]]⟩, ⟨none, []⟩) ∧
    ("c" ++ toString [7]) ∈
      (ScannerState.mk [".mp4"] [".jpg"]
        ["c" ++ toString [7]]).indexed_files ∧
    (VectorDatabase.mk none []).records = [] :=
  ⟨by rfl, by simp, rfl⟩

/-- Loop invariant of the fixed-interval sampling loop: for a nonzero
interval `k` and a positive cap `m`, starting at frame `n` with
`collected` frames already taken, the loop returns exactly the frames at
indices `≥ n` that are multiples of `k`, capped at `m - collected`, each
stamped `index / fps`. -/
theorem sampleLoop_spec {F : Type} (fps : ℚ) (k m : Nat) (hk : k ≠ 0)
    (dflt : F) :
    ∀ (fs : List F) (n collected : Nat), collected < m →
      sampleLoop fps (k : Int) (some m) collected n fs =
        .ok ((((List.range' n fs.length).filter (fun j => j % k = 0)).take
          (m - collected)).map
          (fun j => ⟨fs.getD (j - n) dflt, (j : ℚ) / fps, j⟩)) := by
  intro fs
  induction fs with
  | nil => intro n collected _; simp [sampleLoop]
  | cons f fs ih =>
    intro n collected hcm
    have hkz : ¬ ((k : Int) = 0) := by exact_mod_cast hk
    have hmod : ((n : Int) % (k : Int) = 0) ↔ n % k = 0 := by
      rw [← Int.natCast_mod, Int.natCast_eq_zero]
    have hlen : (f :: fs).length = fs.length + 1 := rfl
    rw [sampleLoop, if_neg hkz]
    by_cases hnk : n % k = 0
    · rw [if_pos (hmod.mpr hnk)]
      have hm0 : m ≠ 0 := by omega
      by_cases hstop : m ≤ collected + 1
      · have hmc : m - collected = 1 := by omega
        rw [if_pos (by simp [maxFramesReached, hm0, hstop])]
        simp [List.range'_succ, hnk, hmc, List.filter_cons]
      · rw [if_neg (by simp [maxFramesReached, hm0]; omega)]
        rw [ih (n + 1) (collected + 1) (by omega)]
        have hmc : m - collected = (m - (collected + 1)) + 1 := by omega
        rw [hlen, List.range'_succ, hmc,
          List.filter_cons_of_pos (by simpa using hnk),
          List.take_succ_cons, List.map_cons]
        simp only [Except.map, Nat.sub_self, List.getD_cons_zero]
        refine congrArg Except.ok (congrArg _ ?_)
        refine List.map_congr_left ?_
        intro j hj
        have hmem := List.mem_filter.mp (List.mem_of_mem_take hj) |>.1
        have hge : n + 1 ≤ j := (List.mem_range'_1.mp hmem).1
        have hsub : j - n = (j - (n + 1)) + 1 := by omega
        rw [hsub]
        simp
    · rw [if_neg (by simpa [hmod] using hnk)]
      rw [ih (n + 1) collected hcm]
      rw [hlen, List.range'_succ,
        List.filter_cons_of_neg (by simpa using hnk)]
      refine congrArg Except.ok ?_
      refine List.map_congr_left ?_
      intro j hj
      have hmem := List.mem_filter.mp (List.mem_of_mem_take hj) |>.1
      have hge : n + 1 ≤ j := (List.mem_range'_1.mp hmem).1
      have hsub : j - n = (j - (n + 1)) + 1 := by omega
      rw [hsub]
      simp

/-- C5 (amended): the sampler computes the frame interval by
*truncation*, `frameInterval = int(videoFps / targetFps)`, not by
rounding; whenever that truncated interval is at least 1 and `maxFrames`
is at least 1, the sampler returns exactly the frames whose index is a
multiple of the interval, in ascending order, stopping once `maxFrames`
frames are collected, each with timestamp `frameIndex / videoFps`. -/
theorem sample_fixed_interval_trunc {F : Type} (cfg : SamplerConfig)
    (v : Video F) (m : Nat) (dflt : F) (hopen : v.isOpened = true)
    (hk : 1 ≤ pyInt (v.fps / cfg.fps)) (hm : 0 < m) :
    sample_fixed_interval cfg v (some m) =
      .ok (fixedIntervalTruncSpec dflt cfg v m) := by
  have hcast : pyInt (v.fps / cfg.fps) =
      (((pyInt (v.fps / cfg.fps)).toNat : Nat) : Int) :=
    (Int.toNat_of_nonneg (by omega)).symm
  have hkz : (pyInt (v.fps / cfg.fps)).toNat ≠ 0 := by omega
  unfold sample_fixed_interval
  rw [if_neg (by simp [hopen])]
  rw [hcast, sampleLoop_spec v.fps _ m hkz dflt v.frames 0 0 hm]
  unfold fixedIntervalTruncSpec
  simp [List.range_eq_range']

/-- C5 witness (amended theorem): a 2 fps video sampled at the 1 fps
target with `maxFrames = 2` returns frames 0 and 2 with timestamps 0 and
1. -/
theorem sample_fixed_interval_trunc_witness :
    sample_fixed_interval ⟨"fixed_interval", 1, 27, 15⟩
      (⟨true, 2, [5, 6, 7, 8, 9]⟩ : Video Nat) (some 2) =
      .ok (fixedIntervalTruncSpec 0 ⟨"fixed_interval", 1, 27, 15⟩
        ⟨true, 2, [5, 6, 7, 8, 9]⟩ 2) :=
  sample_fixed_interval_trunc ⟨"fixed_interval", 1, 27, 15⟩
    ⟨true, 2, [5, 6, 7, 8, 9]⟩ 2 0 rfl
    (by norm_num [pyInt]) (by norm_num)

/-- Membership characterization of an incremental scan: a `MediaFile` is
produced exactly for the visited files with an allow-listed extension
whose fingerprint is not in the loaded set. -/
theorem scan_directory_mem_iff (hashFn : HashInput → String)
    (s : ScannerState) (walkFiles : List FsFile) (mf : MediaFile) :
    mf ∈ scan_directory hashFn s walkFiles true ↔
      ∃ x ∈ walkFiles, pyLower x.ext ∈ s.all_extensions ∧
        compute_file_hash hashFn x ∉ s.indexed_files ∧
        mf = toMediaFile hashFn s x := by
  unfold scan_directory
  rw [List.mem_filterMap]
  constructor
  · rintro ⟨x, hx, hfx⟩
    by_cases h1 : pyLower x.ext ∉ s.all_extensions
    · rw [if_pos h1] at hfx
      exact absurd hfx (by simp)
    · rw [if_neg h1] at hfx
      by_cases h2 : compute_file_hash hashFn x ∈ s.indexed_files
      · rw [if_pos ⟨rfl, h2⟩] at hfx
        exact absurd hfx (by simp)
      · rw [if_neg (fun hc => h2 hc.2)] at hfx
        exact ⟨x, hx, not_not.mp h1, h2,
          ((Option.some.injEq _ _).mp hfx).symm⟩
  · rintro ⟨x, hx, h1, h2, rfl⟩
    exact ⟨x, hx, by rw [if_neg (not_not.mpr h1),
      if_neg (fun hc => h2 hc.2)]⟩

/-- An incremental scan distributes over the walked file list. -/
theorem scan_directory_append (hashFn : HashInput → String)
    (s : ScannerState) (l₁ l₂ : List FsFile) (incremental : Bool) :
    scan_directory hashFn s (l₁ ++ l₂) incremental =
      scan_directory hashFn s l₁ incremental ++
        scan_directory hashFn s l₂ incremental := by
  unfold scan_directory
  exact List.filterMap_append _ _ _

/-- C8: in incremental mode a visited media file is excluded from the
scan result exactly when its computed fingerprint is in the loaded set
(part 1); after a committed run, rescanning the unchanged directory
returns nothing (part 2); and after adding one new file whose fingerprint
is fresh, a rescan returns exactly that file (part 3). -/
theorem scan_directory_incremental_dedup (hashFn : HashInput → String)
    (s : ScannerState) (walkFiles : List FsFile) (f g : FsFile)
    (hf : f ∈ walkFiles) (hext : pyLower f.ext ∈ s.all_extensions)
    (hgext : pyLower g.ext ∈ (update_ignore_file s
      (scan_directory hashFn s walkFiles true)).all_extensions)
    (hgnew : compute_file_hash hashFn g ∉ (update_ignore_file s
      (scan_directory hashFn s walkFiles true)).indexed_files) :
    (toMediaFile hashFn s f ∈ scan_directory hashFn s walkFiles true ↔
      compute_file_hash hashFn f ∉ s.indexed_files) ∧
    scan_directory hashFn
      (update_ignore_file s (scan_directory hashFn s walkFiles true))
      walkFiles true = [] ∧
    scan_directory hashFn
      (update_ignore_file s (scan_directory hashFn s walkFiles true))
      (walkFiles ++ [g]) true =
      [toMediaFile hashFn
        (update_ignore_file s (scan_directory hashFn s walkFiles true)) g] := by
  have hL : ∀ mf, mf ∈ scan_directory hashFn s walkFiles true ↔
      ∃ x ∈ walkFiles, pyLower x.ext ∈ s.all_extensions ∧
        compute_file_hash hashFn x ∉ s.indexed_files ∧
        mf = toMediaFile hashFn s x :=
    fun mf => scan_directory_mem_iff hashFn s walkFiles mf
  set L := scan_directory hashFn s walkFiles true with hLdef
  set s2 := update_ignore_file s L with hs2
  have hs2ext : s2.all_extensions = s.all_extensions := rfl
  have hs2idx : s2.indexed_files =
      s.indexed_files ++ L.map (·.file_hash) := rfl
  have hrescan : scan_directory hashFn s2 walkFiles true = [] := by
    unfold scan_directory
    rw [List.filterMap_eq_nil_iff]
    intro x hx
    by_cases h1 : pyLower x.ext ∉ s2.all_extensions
    · rw [if_pos h1]
    · refine (if_neg h1).trans (if_pos ⟨rfl, ?_⟩)
      rw [hs2idx, List.mem_append]
      by_cases h2 : compute_file_hash hashFn x ∈ s.indexed_files
      · exact Or.inl h2
      · refine Or.inr (List.mem_map.mpr ⟨toMediaFile hashFn s x, ?_, rfl⟩)
        exact (hL _).mpr
          ⟨x, hx, not_not.mp (by rw [hs2ext] at h1; exact h1), h2, rfl⟩
  refine ⟨?_, hrescan, ?_⟩
  · constructor
    · intro hmem
      obtain ⟨x, _, _, h2, heq⟩ := (hL _).mp hmem
      have hh : compute_file_hash hashFn f = compute_file_hash hashFn x :=
        congrArg MediaFile.file_hash heq
      rw [hh]
      exact h2
    · intro hnew
      exact (hL _).mpr ⟨f, hf, hext, hnew, rfl⟩
  · rw [scan_directory_append, hrescan, List.nil_append]
    have hstep : (if pyLower g.ext ∉ s2.all_extensions then none
        else if (true : Bool) ∧ compute_file_hash hashFn g ∈ s2.indexed_files
          then none
        else some (toMediaFile hashFn s2 g)) =
        some (toMediaFile hashFn s2 g) := by
      rw [if_neg (not_not.mpr hgext), if_neg (fun hc => hgnew hc.2)]
    unfold scan_directory
    rw [List.filterMap_cons, hstep, List.filterMap_nil]

/-- C8 witness: committing a one-file scan makes the unchanged rescan
empty, and adding one fresh file makes the rescan return exactly it. -/
theorem scan_directory_incremental_dedup_witness :
    (toMediaFile (fun hi => match hi with
        | .fullContent b => if b = [1] then "h1" else "h2"
        | .headTail _ _ _ => "ht"
        | .pathFallback p _ => p)
      ⟨[".mp4"], [".jpg"], []⟩ ⟨"/x/a.jpg", ".jpg", [1], 1, 0, true⟩ ∈
      scan_directory (fun hi => match hi with
        | .fullContent b => if b = [1] then "h1" else "h2"
        | .headTail _ _ _ => "ht"
        | .pathFallback p _ => p)
        ⟨[".mp4"], [".jpg"], []⟩
        [⟨"/x/a.jpg", ".jpg", [1], 1, 0, true⟩] true ↔
      compute_file_hash (fun hi => match hi with
        | .fullContent b => if b = [1] then "h1" else "h2"
        | .headTail _ _ _ => "ht"
        | .pathFallback p _ => p)
        ⟨"/x/a.jpg", ".jpg", [1], 1, 0, true⟩ ∉
        (ScannerState.mk [".mp4"] [".jpg"] []).indexed_files) ∧
    scan_directory (fun hi => match hi with
        | .fullContent b => if b = [1] then "h1" else "h2"
        | .headTail _ _ _ => "ht"
        | .pathFallback p _ => p)
      (update_ignore_file ⟨[".mp4"], [".jpg"], []⟩
        (scan_directory (fun hi => match hi with
          | .fullContent b => if b = [1] then "h1" else "h2"
          | .headTail _ _ _ => "ht"
          | .pathFallback p _ => p)
          ⟨[".mp4"], [".jpg"], []⟩
          [⟨"/x/a.jpg", ".jpg", [1], 1, 0, true⟩] true))
      [⟨"/x/a.jpg", ".jpg", [1], 1, 0, true⟩] true = [] ∧
    scan_directory (fun hi => match hi with
        | .fullContent b => if b = [1] then "h1" else "h2"
        | .headTail _ _ _ => "ht"
        | .pathFallback p _ => p)
      (update_ignore_file ⟨[".mp4"], [".jpg"], []⟩
        (scan_directory (fun hi => match hi with
          | .fullContent b => if b = [1] then "h1" else "h2"
          | .headTail _ _ _ => "ht"
          | .pathFallback p _ => p)
          ⟨[".mp4"], [".jpg"], []⟩
          [⟨"/x/a.jpg", ".jpg", [1], 1, 0, true⟩] true))
      ([⟨"/x/a.jpg", ".jpg", [1], 1, 0, true⟩] ++
        [⟨"/x/b.jpg", ".jpg", [2], 1, 0, true⟩]) true =
      [toMediaFile (fun hi => match hi with
        | .fullContent b => if b = [1] then "h1" else "h2"
        | .headTail _ _ _ => "ht"
        | .pathFallback p _ => p)
        (update_ignore_file ⟨[".mp4"], [".jpg"], []⟩
          (scan_directory (fun hi => match hi with
            | .fullContent b => if b = [1] then "h1" else "h2"
            | .headTail _ _ _ => "ht"
            | .pathFallback p _ => p)
            ⟨[".mp4"], [".jpg"], []⟩
            [⟨"/x/a.jpg", ".jpg", [1], 1, 0, true⟩] true))
        ⟨"/x/b.jpg", ".jpg", [2], 1, 0, true⟩] :=
  scan_directory_incremental_dedup _ ⟨[".mp4"], [".jpg"], []⟩
    [⟨"/x/a.jpg", ".jpg", [1], 1, 0, true⟩]
    ⟨"/x/a.jpg", ".jpg", [1], 1, 0, true⟩
    ⟨"/x/b.jpg", ".jpg", [2], 1, 0, true⟩
    (List.mem_singleton_self _) (by decide) (by decide) (by decide)

/-- `validLoads` never collects more entries than there are paths. -/
theorem validLoads_length_le {Img : Type} (P : EmbeddingPipeline Img) :
    ∀ (ps : List String) (i0 : Nat),
      (validLoads P i0 ps).length ≤ ps.length := by
  intro ps
  induction ps with
  | nil => intro i0; simp [validLoads]
  | cons p ps ih =>
    intro i0
    unfold validLoads
    cases P.loadImage p with
    | some img => simpa using ih (i0 + 1)
    | none => exact le_trans (ih (i0 + 1)) (by simp)

/-- Every collected index lies in `[i0, i0 + ps.length)`. -/
theorem validLoads_fst_bounds {Img : Type} (P : EmbeddingPipeline Img) :
    ∀ (ps : List String) (i0 : Nat) (q : Nat × Img),
      q ∈ validLoads P i0 ps → i0 ≤ q.1 ∧ q.1 < i0 + ps.length := by
  intro ps
  induction ps with
  | nil => intro i0 q hq; simp [validLoads] at hq
  | cons p ps ih =>
    intro i0 q hq
    unfold validLoads at hq
    split at hq
    · rcases List.mem_cons.mp hq with rfl | hmem
      · simp
      · have := ih (i0 + 1) q hmem
        constructor
        · omega
        · simp only [List.length_cons]
          omega
    · have := ih (i0 + 1) q hq
      constructor
      · omega
      · simp only [List.length_cons]
        omega

/-- An index whose path fails to load is not among the collected
indices. -/
theorem validLoads_not_mem {Img : Type} (P : EmbeddingPipeline Img) :
    ∀ (ps : List String) (i0 i : Nat), i < ps.length →
      P.loadImage (ps.getD i "") = none →
      (i0 + i) ∉ (validLoads P i0 ps).map Prod.fst := by
  intro ps
  induction ps with
  | nil => intro i0 i hi; simp at hi
  | cons p ps ih =>
    intro i0 i hi hload hmem
    unfold validLoads at hmem
    split at hmem
    · rename_i img heq
      cases i with
      | zero =>
        simp only [List.getD_cons_zero] at hload
        rw [hload] at heq
        exact absurd heq (by simp)
      | succ j =>
        simp only [List.getD_cons_succ] at hload
        have hj : j < ps.length := by simpa using hi
        rcases List.mem_map.mp hmem with ⟨q, hq, hq1⟩
        rcases List.mem_cons.mp hq with rfl | hqmem
        · simp at hq1
        · refine ih (i0 + 1) j hj hload ?_
          rw [show i0 + 1 + j = i0 + (j + 1) from by omega]
          exact List.mem_map.mpr ⟨q, hqmem, hq1⟩
    · cases i with
      | zero =>
        rcases List.mem_map.mp hmem with ⟨q, hq, hq1⟩
        have hb := (validLoads_fst_bounds P ps (i0 + 1) q hq).1
        omega
      | succ j =>
        simp only [List.getD_cons_succ] at hload
        have hj : j < ps.length := by simpa using hi
        refine ih (i0 + 1) j hj hload ?_
        rw [show i0 + 1 + j = i0 + (j + 1) from by omega]
        exact hmem

/-- An index whose path loads is among the collected indices. -/
theorem validLoads_mem {Img : Type} (P : EmbeddingPipeline Img) :
    ∀ (ps : List String) (i0 i : Nat), i < ps.length →
      P.loadImage (ps.getD i "") ≠ none →
      (i0 + i) ∈ (validLoads P i0 ps).map Prod.fst := by
  intro ps
  induction ps with
  | nil => intro i0 i hi; simp at hi
  | cons p ps ih =>
    intro i0 i hi hload
    unfold validLoads
    split
    · rename_i img heq
      cases i with
      | zero => simp
      | succ j =>
        simp only [List.getD_cons_succ] at hload
        have hj : j < ps.length := by simpa using hi
        have hrec := ih (i0 + 1) j hj hload
        rw [show i0 + 1 + j = i0 + (j + 1) from by omega] at hrec
        simp only [List.map_cons]
        exact List.mem_cons_of_mem _ hrec
    · rename_i heq
      cases i with
      | zero =>
        simp only [List.getD_cons_zero] at hload
        exact absurd heq hload
      | succ j =>
        simp only [List.getD_cons_succ] at hload
        have hj : j < ps.length := by simpa using hi
        have hrec := ih (i0 + 1) j hj hload
        rw [show i0 + 1 + j = i0 + (j + 1) from by omega] at hrec
        exact hrec

/-- If `validLoads` is full-length, every path loads. -/
theorem validLoads_all_some {Img : Type} (P : EmbeddingPipeline Img) :
    ∀ (ps : List String) (i0 : Nat),
      (validLoads P i0 ps).length = ps.length →
      ∀ i, i < ps.length → P.loadImage (ps.getD i "") ≠ none := by
  intro ps
  induction ps with
  | nil => intro i0 _ i hi; simp at hi
  | cons p ps ih =>
    intro i0 hlen i hi
    unfold validLoads at hlen
    split at hlen
    · rename_i img heq
      simp only [List.length_cons] at hlen
      cases i with
      | zero =>
        simp only [List.getD_cons_zero]
        rw [heq]
        simp
      | succ j =>
        simp only [List.getD_cons_succ]
        exact ih (i0 + 1) (by omega) j (by simpa using hi)
    · rename_i heq
      have := validLoads_length_le P ps (i0 + 1)
      simp only [List.length_cons] at hlen
      omega

/-- The scatter target has one slot per input path. -/
theorem scatterRows_length (n dim : Nat) (idxs : List Nat)
    (rows : List (List ℚ)) : (scatterRows n dim idxs rows).length = n := by
  simp [scatterRows]

/-- A slot whose index is not scattered into keeps the zero vector. -/
theorem scatterRows_getD_of_not_mem {n dim i : Nat} {idxs : List Nat}
    (rows : List (List ℚ)) (hi : i < n) (h : i ∉ idxs) :
    (scatterRows n dim idxs rows).getD i [] = zeroVec dim := by
  unfold scatterRows
  rw [List.getD_eq_getElem?_getD, List.getElem?_map,
    List.getElem?_range hi]
  have hfind : (idxs.zip rows).find? (fun q => q.1 = i) = none := by
    rw [List.find?_eq_none]
    intro q hq
    have hq1 := (List.of_mem_zip hq).1
    simp only [decide_eq_true_eq]
    intro hqi
    exact h (hqi ▸ hq1)
  simp [hfind]

/-- A slot whose index is scattered into receives one of the rows. -/
theorem scatterRows_getD_of_mem {n dim i : Nat} {idxs : List Nat}
    {rows : List (List ℚ)} (hi : i < n) (h : i ∈ idxs)
    (hlen : idxs.length ≤ rows.length) :
    (scatterRows n dim idxs rows).getD i [] ∈ rows := by
  unfold scatterRows
  rw [List.getD_eq_getElem?_getD, List.getElem?_map,
    List.getElem?_range hi]
  have hzip : i ∈ (idxs.zip rows).map Prod.fst := by
    rw [List.map_fst_zip _ _ hlen]
    exact h
  obtain ⟨q, hq, hq1⟩ := List.mem_map.mp hzip
  cases hfind : (idxs.zip rows).find? (fun q => q.1 = i) with
  | none =>
    rw [List.find?_eq_none] at hfind
    exact absurd (by simpa using hq1) (by simpa using hfind q hq)
  | some q' =>
    have hq'mem := List.mem_of_find?_eq_some hfind
    simp only [Option.map_some', Option.getD_some, hfind]
    exact (List.of_mem_zip hq'mem).2

/-- Normalizing by the exact positive L2 norm yields a unit vector
(squared norm 1). -/
theorem sumSq_normalizeRow {Img : Type} (P : EmbeddingPipeline Img)
    (v : List ℚ) (hsq : P.l2norm v * P.l2norm v = sumSq v)
    (hpos : 0 < P.l2norm v) : sumSq (normalizeRow P v) = 1 := by
  have hgen : ∀ (c : ℚ) (w : List ℚ),
      sumSq (w.map (fun x => x / c)) = sumSq w / (c * c) := by
    intro c w
    induction w with
    | nil => simp [sumSq]
    | cons a w ih =>
      simp only [sumSq, List.map_cons, List.map_map, List.sum_cons] at *
      rw [ih, div_mul_div_comm, div_add_div_same]
  unfold normalizeRow
  rw [hgen, ← hsq]
  exact div_self (by positivity)

/-- `_encode_image_batch` satisfies the alignment contract on any single
batch: output length matches, failed loads own zero vectors, successful
loads own unit vectors. -/
theorem encode_image_batch_spec {Img : Type} (P : EmbeddingPipeline Img)
    (hP : FeatureSound P) (chunk : List String) :
    BatchAligned P chunk (encode_image_batch P chunk) := by
  unfold encode_image_batch
  by_cases hempty : ((validLoads P 0 chunk).map Prod.snd).isEmpty
  · rw [if_pos hempty]
    have hnil : validLoads P 0 chunk = [] := by
      simpa [List.isEmpty_iff, List.map_eq_nil_iff] using hempty
    refine ⟨by simp, ?_⟩
    intro i hi
    constructor
    · intro _
      rw [List.getD_eq_getElem?_getD, List.getElem?_replicate]
      simp [hi]
    · intro hsome
      have := validLoads_mem P chunk 0 i hi hsome
      rw [hnil] at this
      simp at this
  · rw [if_neg hempty]
    have hlenv : (P.getImageFeatures ((validLoads P 0 chunk).map
        Prod.snd)).length = (validLoads P 0 chunk).length := by
      rw [hP.len_eq]
      simp
    have hembs : ((P.getImageFeatures ((validLoads P 0 chunk).map
        Prod.snd)).map (normalizeRow P)).length =
        (validLoads P 0 chunk).length := by
      simpa using hlenv
    have hunit : ∀ e ∈ (P.getImageFeatures ((validLoads P 0 chunk).map
        Prod.snd)).map (normalizeRow P), sumSq e = 1 := by
      intro e he
      obtain ⟨w, hw, rfl⟩ := List.mem_map.mp he
      exact sumSq_normalizeRow P w (hP.norm_sq _ w hw) (hP.norm_pos _ w hw)
    by_cases hlt : ((validLoads P 0 chunk).map Prod.fst).length <
        chunk.length
    · rw [if_pos hlt]
      refine ⟨scatterRows_length _ _ _ _, ?_⟩
      intro i hi
      constructor
      · intro hnone
        refine scatterRows_getD_of_not_mem _ hi ?_
        have := validLoads_not_mem P chunk 0 i hi hnone
        simpa using this
      · intro hsome
        have hmem : i ∈ (validLoads P 0 chunk).map Prod.fst := by
          simpa using validLoads_mem P chunk 0 i hi hsome
        refine hunit _ (scatterRows_getD_of_mem hi hmem ?_)
        simp [hembs]
    · rw [if_neg hlt]
      have hfull : (validLoads P 0 chunk).length = chunk.length := by
        have h1 := validLoads_length_le P chunk 0
        simp only [List.length_map, not_lt] at hlt
        omega
      refine ⟨by rw [hembs, hfull], ?_⟩
      intro i hi
      constructor
      · intro hnone
        exact absurd hnone (validLoads_all_some P chunk 0 hfull i hi)
      · intro _
        refine hunit _ ?_
        have hilen : i < ((P.getImageFeatures ((validLoads P 0 chunk).map
            Prod.snd)).map (normalizeRow P)).length := by
          rw [hembs, hfull]
          exact hi
        rw [List.getD_eq_getElem?_getD, List.getElem?_eq_getElem hilen]
        exact List.getElem_mem _

/-- The alignment contract is preserved by concatenating batches. -/
theorem batchAligned_append {Img : Type} {P : EmbeddingPipeline Img}
    {p₁ p₂ : List String} {o₁ o₂ : List (List ℚ)}
    (h₁ : BatchAligned P p₁ o₁) (h₂ : BatchAligned P p₂ o₂) :
    BatchAligned P (p₁ ++ p₂) (o₁ ++ o₂) := by
  obtain ⟨hl₁, hp₁⟩ := h₁
  obtain ⟨hl₂, hp₂⟩ := h₂
  refine ⟨by simp [hl₁, hl₂], ?_⟩
  intro i hi
  rw [List.length_append] at hi
  by_cases hc : i < p₁.length
  · rw [List.getD_append _ _ _ _ hc, List.getD_append _ _ _ _ (hl₁ ▸ hc)]
    exact hp₁ i hc
  · push_neg at hc
    rw [List.getD_append_right _ _ _ _ hc,
      List.getD_append_right _ _ _ _ (hl₁ ▸ hc), hl₁]
    exact hp₂ _ (by omega)

/-- `range(0, 0, b)` is empty. -/
theorem batchStarts_nil (b : Nat) : batchStarts 0 b = [] := by
  rcases Nat.eq_zero_or_pos b with rfl | hb
  · simp [batchStarts]
  · unfold batchStarts
    rw [Nat.div_eq_of_lt (by omega)]
    simp

/-- Peeling the first batch start off a nonempty range. -/
theorem batchStarts_cons (b n : Nat) (hb : 0 < b) (hn : 0 < n) :
    batchStarts n b = 0 :: (batchStarts (n - b) b).map (· + b) := by
  unfold batchStarts
  have hcount : (n + b - 1) / b = (n - b + b - 1) / b + 1 := by
    rw [show n + b - 1 = (n - 1) + b from by omega, Nat.add_div_right _ hb]
    rcases le_or_lt n b with h | h
    · rw [show n - b = 0 from by omega,
        Nat.div_eq_of_lt (show n - 1 < b from by omega),
        Nat.div_eq_of_lt (show 0 + b - 1 < b from by omega)]
    · rw [show n - b + b - 1 = n - 1 from by omega]
  rw [hcount, List.range_succ_eq_map]
  simp [List.map_map, Function.comp_def, Nat.succ_mul, Nat.add_comm]

/-- Peeling the first batch off `encode_images`' batch list. -/
theorem encodeBatchesList_cons {Img : Type} (P : EmbeddingPipeline Img)
    (paths : List String) (b : Nat) (hb : 0 < b) (hne : paths ≠ []) :
    encodeBatchesList P paths b =
      encode_image_batch P (paths.take b) ::
        encodeBatchesList P (paths.drop b) b := by
  unfold encodeBatchesList
  rw [batchStarts_cons b paths.length hb (List.length_pos.mpr hne),
    List.map_cons, List.drop_zero, List.map_map, List.length_drop]
  refine congrArg _ (List.map_congr_left fun i _ => ?_)
  simp only [Function.comp_apply]
  rw [List.drop_drop, Nat.add_comm i b]

/-- The flattened batch outputs of `encode_images` satisfy the alignment
contract for the whole input list. -/
theorem encodeBatches_flatten_aligned {Img : Type}
    (P : EmbeddingPipeline Img) (hP : FeatureSound P) (b : Nat)
    (hb : 0 < b) :
    ∀ paths : List String,
      BatchAligned P paths (encodeBatchesList P paths b).flatten := by
  intro paths
  generalize hn : paths.length = n
  induction n using Nat.strong_induction_on generalizing paths with
  | _ n ih =>
    rcases eq_or_ne paths [] with rfl | hne
    · rw [encodeBatchesList, List.length_nil, batchStarts_nil]
      exact ⟨rfl, fun i hi => absurd hi (by simp)⟩
    · have hpos : 0 < paths.length := List.length_pos.mpr hne
      have h₂ : BatchAligned P (paths.drop b)
          (encodeBatchesList P (paths.drop b) b).flatten :=
        ih (paths.drop b).length
          (by rw [List.length_drop]; omega) (paths.drop b) rfl
      have happ := batchAligned_append
        (encode_image_batch_spec P hP (paths.take b)) h₂
      rw [List.take_append_drop] at happ
      rw [encodeBatchesList_cons P paths b hb hne, List.flatten_cons]
      exact happ

/-- C4: on every nonempty path list and positive batch size, with a
sound provider (one feature vector per image, exact positive norms),
`encode_images` succeeds and returns one row per input path, aligned
with input order: a path whose image fails to load owns the all-zero
vector of the embedding dimension at its index, and a path that loads
owns an exactly unit-length (L2-normalized) vector at its index. -/
theorem encode_images_aligned {Img : Type} (P : EmbeddingPipeline Img)
    (hP : FeatureSound P) (image_paths : List String)
    (hne : image_paths ≠ []) (batch_size : Nat) (hb : 0 < batch_size) :
    ∃ out, encode_images P image_paths batch_size = .ok out ∧
      BatchAligned P image_paths out := by
  refine ⟨(encodeBatchesList P image_paths batch_size).flatten, ?_,
    encodeBatches_flatten_aligned P hP batch_size hb image_paths⟩
  unfold encode_images npVstack
  rw [encodeBatchesList_cons P image_paths batch_size hb hne]
  simp

/-- C4 witness: three paths with the middle one unreadable yield a
length-3 output with the zero vector at index 1 and unit vectors at the
loaded slots. -/
theorem encode_images_aligned_witness :
    ∃ out, encode_images (⟨2, (fun p => if p = "bad" then none
        else some 0), (fun imgs => imgs.map (fun _ => [3, 4])),
        fun _ => [], fun v => if v = [3, 4] then 5 else 1⟩ :
        EmbeddingPipeline Nat) ["a", "bad", "b"] 32 = .ok out ∧
      BatchAligned (⟨2, (fun p => if p = "bad" then none else some 0),
        (fun imgs => imgs.map (fun _ => [3, 4])), fun _ => [],
        fun v => if v = [3, 4] then 5 else 1⟩ : EmbeddingPipeline Nat)
        ["a", "bad", "b"] out :=
  encode_images_aligned _
    ⟨fun imgs => by simp,
     fun imgs v hv => by
       obtain ⟨img, _, rfl⟩ := List.mem_map.mp hv
       norm_num [sumSq],
     fun imgs v hv => by
       obtain ⟨img, _, rfl⟩ := List.mem_map.mp hv
       norm_num⟩
    ["a", "bad", "b"] (by simp) 32 (by decide)

end Chronos
